import Mathlib

/-!
# sqlcoro: a pull iterator over database rows

A shallow embedding of `sqlcoro.go` (`IterateRows` and the `NextFunc` it returns) and of
the fixtures of `sqlcoro_test.go`, followed by the properties proved about them.

Conventions of the embedding.

* A Go interface value or pointer that may be nil is an `Option`: `none` is nil.
  `Option ε` is a Go `error`, `Option ρ` a `sqler.Row`, `Option (Option ε)` a `*error`,
  `Option (Option ρ)` a `*sqler.Row` (outer `none`: nil pointer, otherwise the content of
  the variable pointed to).
* The row source lives in a heap of type `σ`; `ρ` is the type of the reference `rows`
  held by the caller and by the closures. Methods of the source are state passing.
* The closure returned by `IterateRows` is the record of its captured variables
  (`Iterator`); calling it is `NextFunc`.
* A nil pointer dereference is the only way `NextFunc` can fail; it is `none`.
-/

namespace sqlcoro

/-! ## The row source -/

/-- The methods of `sqler.Rows` called by `IterateRows`: `Next`, `Err` and `Close`, each
taking and returning the state of the source. -/
structure Rows (σ ε : Type) where
  Next : σ → Bool × σ
  Err : σ → Option ε × σ
  Close : σ → Option ε × σ

/-! ## The suspend/resume primitive -/

/-- Modelled from the spec: the coroutine created by `coro.New` (package
`github.com/tcard/coro`, not part of this repository). It owns a configuration value,
produced by the option functions, and knows whether its producer has returned. -/
structure Coroutine (Ω : Type) where
  options : Ω
  finished : Bool

/-- Modelled from the spec: `coro.New(f, options...)`. The options are
"configuration-mutating functions applied to a configuration value owned by the
suspend/resume primitive" (spec §9), each applied once, in order, during construction
(spec §8). The producer does not run before the driver is first invoked (spec §2). -/
def coro_New {Ω : Type} (zero : Ω) (options : List (Ω → Ω)) : Coroutine Ω :=
  { options := options.foldl (fun o setOption => setOption o) zero, finished := false }

/-- Modelled from the spec: the driver function returned by `coro.New`: "each time
invoked, runs the producer until its next yield call (or until it returns), then suspends
it" (spec §2), and reports whether the producer is still alive; "terminated is absorbing"
(spec §4.2): on a producer that has returned it runs nothing and reports not alive.
`segment` is the producer's code from where it is parked to its next `yield()` (result
`true`) or to its return (result `false`), acting on the variables `w` it shares with the
consumer. -/
def Coroutine.resume {Ω W : Type} (c : Coroutine Ω) (segment : W → Bool × W) (w : W) :
    Bool × Coroutine Ω × W :=
  if c.finished then (false, c, w)
  else
    let (parked, w) := segment w
    (parked, { c with finished := !parked }, w)

/-! ## `IterateRows` -/

/-- How a run of the producer `f` stops: at `yield(v)`, or by returning `err`. -/
inductive Signal (σ ρ ε : Type) where
  | yield (v : ρ) (heap : σ)
  | ret (err : Option ε) (heap : σ)

/-- The deferred function of `f` (sqlcoro.go:17-22): close the source and, when the result
`err` of `f` is nil, replace it by the error of `Close`. -/
def f_defer {σ ε : Type} (R : Rows σ ε) (err : Option ε) (heap : σ) : Option ε × σ :=
  let (closeErr, heap) := R.Close heap
  (if err.isNone then closeErr else err, heap)

/-- The producer `f` (sqlcoro.go:16-27) from the head of its `for rows.Next()` loop to the
next `yield(rows)` or to its return. The producer is at the head of the loop both when it
is first entered (the `defer` statement has no effect until the return) and when `yield`
returns, so one function covers every resumption. -/
def f {σ ρ ε : Type} (R : Rows σ ε) (rows : ρ) (heap : σ) : Signal σ ρ ε :=
  let (more, heap) := R.Next heap
  if more then .yield rows heap
  else
    let (err, heap) := R.Err heap
    let (err, heap) := f_defer R err heap
    .ret err heap

/-- The variables shared by the producer and the consumer side of `IterateRows`
(sqlcoro.go:14-15), with the heap holding the source. -/
structure Vars (σ ρ ε : Type) where
  heap : σ
  err : Option ε
  yielded : Option ρ

/-- The function handed to `coro.New` (sqlcoro.go:29-34): run `f` with a `yield` that stores
its argument in `yielded` and suspends; when `f` returns, store its result in `err`. -/
def body {σ ρ ε : Type} (R : Rows σ ε) (rows : ρ) (w : Vars σ ρ ε) : Bool × Vars σ ρ ε :=
  match f R rows w.heap with
  | .yield v heap => (true, { w with yielded := some v, heap := heap })
  | .ret err heap => (false, { w with err := err, heap := heap })

/-- The closure returned by `IterateRows`: the captured variables and the coroutine `next`. -/
structure Iterator (σ ρ ε Ω : Type) where
  vars : Vars σ ρ ε
  next : Coroutine Ω

/-- `IterateRows(rows, options...)` (sqlcoro.go:13-47): both captured variables start as nil
and the options are passed on to `coro.New`. `heap` is the state of the source at the
time of the call and `zero` the zero value of `coro.Options`. -/
def IterateRows {σ ρ ε Ω : Type} (heap : σ) (zero : Ω) (options : List (Ω → Ω)) :
    Iterator σ ρ ε Ω :=
  { vars := { heap := heap, err := none, yielded := none }, next := coro_New zero options }

/-- What a call of the returned function leaves behind: the flag it returns, the content
of the two slots (nil pointers stay nil) and the closure. -/
structure Outcome (σ ρ ε Ω : Type) where
  alive : Bool
  into : Option (Option ρ)
  returned : Option (Option ε)
  it : Iterator σ ρ ε Ω

/-- The function returned by `IterateRows` (sqlcoro.go:37-46), called with the pointers
`into` and `returned`. `none` is the nil pointer dereference of `*into = yielded`. -/
def NextFunc {σ ρ ε Ω : Type} (R : Rows σ ε) (rows : ρ) (it : Iterator σ ρ ε Ω)
    (into : Option (Option ρ)) (returned : Option (Option ε)) : Option (Outcome σ ρ ε Ω) :=
  let (alive, next, vars) := it.next.resume (body R rows) it.vars
  if alive && into.isNone then none
  else
    let into := if alive then some vars.yielded else into
    let returned := if vars.err.isSome && returned.isSome then some vars.err else returned
    some { alive := alive, into := into, returned := returned, it := { vars := vars, next := next } }

/-! ## Calling the returned function repeatedly -/

/-- The iterators that calls of the returned function lead to from `it`, whatever pointers
each call is given. -/
inductive Later {σ ρ ε Ω : Type} (R : Rows σ ε) (rows : ρ) (it : Iterator σ ρ ε Ω) :
    Iterator σ ρ ε Ω → Prop where
  | refl : Later R rows it it
  | call {it' : Iterator σ ρ ε Ω} {into : Option (Option ρ)} {returned : Option (Option ε)}
      {o : Outcome σ ρ ε Ω} :
      Later R rows it it' → NextFunc R rows it' into returned = some o → Later R rows it o.it

/-- The consumer of `TestIterateRows` and `Example` (sqlcoro_test.go:127-130, 31-33): the
iterator `nextRow` and the variables `row` and `err` whose addresses every call passes. -/
structure Consumer (σ ρ ε Ω : Type) where
  nextRow : Iterator σ ρ ε Ω
  row : Option ρ
  err : Option ε

/-- One evaluation of `nextRow(&row, &err)`: the flag returned and the consumer afterwards. -/
def Consumer.call {σ ρ ε Ω : Type} (R : Rows σ ε) (rows : ρ) (c : Consumer σ ρ ε Ω) :
    Option (Bool × Consumer σ ρ ε Ω) :=
  match NextFunc R rows c.nextRow (some c.row) (some c.err) with
  | some { alive := alive, into := some row, returned := some err, it := it } =>
      some (alive, { nextRow := it, row := row, err := err })
  | _ => none

/-- What the consumer sees after a call: the flag and the content of `row` and `err`. -/
structure Seen (ρ ε : Type) where
  alive : Bool
  row : Option ρ
  err : Option ε
  deriving DecidableEq, Repr

/-- The first `n` evaluations of `nextRow(&row, &err)`: what the consumer sees after each of
them, and the consumer after the last. -/
def Consumer.calls {σ ρ ε Ω : Type} (R : Rows σ ε) (rows : ρ) :
    Nat → Consumer σ ρ ε Ω → Option (List (Seen ρ ε) × Consumer σ ρ ε Ω)
  | 0, c => some ([], c)
  | n + 1, c =>
    match c.call R rows with
    | none => none
    | some (alive, c) =>
      match Consumer.calls R rows n c with
      | none => none
      | some (seen, c') => some ({ alive := alive, row := c.row, err := c.err } :: seen, c')

/-! ## Row sources that are exhausted after `N` rows -/

/-- `Next` returns true exactly `N` times from `heap` on, and then false. -/
def Yields {σ ε : Type} (R : Rows σ ε) : Nat → σ → Prop
  | 0, heap => (R.Next heap).1 = false
  | N + 1, heap => (R.Next heap).1 = true ∧ Yields R N (R.Next heap).2

instance Yields.instDecidable {σ ε : Type} (R : Rows σ ε) :
    (N : Nat) → (heap : σ) → Decidable (Yields R N heap)
  | 0, heap => inferInstanceAs (Decidable ((R.Next heap).1 = false))
  | N + 1, heap =>
    have := Yields.instDecidable R N (R.Next heap).2
    inferInstanceAs (Decidable ((R.Next heap).1 = true ∧ Yields R N (R.Next heap).2))

/-- The state of the source after `k` calls of `Next`. -/
def afterNext {σ ε : Type} (R : Rows σ ε) : Nat → σ → σ
  | 0, heap => heap
  | k + 1, heap => afterNext R k (R.Next heap).2

/-- The error `Err` returns when called after `k` calls of `Next`. -/
def errAfter {σ ε : Type} (R : Rows σ ε) (k : Nat) (heap : σ) : Option ε :=
  (R.Err (afterNext R k heap)).1

/-- The error `Close` returns when called after `k` calls of `Next` and one of `Err`. -/
def closeErrAfter {σ ε : Type} (R : Rows σ ε) (k : Nat) (heap : σ) : Option ε :=
  (R.Close (R.Err (afterNext R k heap)).2).1

/-- The state of the source after `k` calls of `Next`, one of `Err` and one of `Close`. -/
def afterClose {σ ε : Type} (R : Rows σ ε) (k : Nat) (heap : σ) : σ :=
  (R.Close (R.Err (afterNext R k heap)).2).2

/-! ## Recording the calls a source receives -/

/-- A call received by the source, with the value it returned. -/
inductive Event (ε : Type) where
  | Next (more : Bool)
  | Err (err : Option ε)
  | Close (err : Option ε)
  deriving DecidableEq, Repr

/-- The source `R` together with the list of the calls it has received, oldest first. The
results and the state of `R` are untouched. -/
def traced {σ ε : Type} (R : Rows σ ε) : Rows (σ × List (Event ε)) ε where
  Next := fun h => ((R.Next h.1).1, (R.Next h.1).2, h.2 ++ [Event.Next (R.Next h.1).1])
  Err := fun h => ((R.Err h.1).1, (R.Err h.1).2, h.2 ++ [Event.Err (R.Err h.1).1])
  Close := fun h => ((R.Close h.1).1, (R.Close h.1).2, h.2 ++ [Event.Close (R.Close h.1).1])

/-- The option functions `options`, each also appending its position in the list to a
record of the applications made. -/
def counted {Ω : Type} (options : List (Ω → Ω)) : List (Ω × List Nat → Ω × List Nat) :=
  options.enum.map fun p => fun c => (p.2 c.1, c.2 ++ [p.1])

/-- Whether a recorded call is a call of `Next`. -/
def Event.isNext {ε : Type} : Event ε → Bool
  | .Next _ => true
  | _ => false

/-- The number of calls of `Next` recorded in `log`. -/
def nextCalls {ε : Type} (log : List (Event ε)) : Nat :=
  log.countP Event.isNext

/-- The first `n` evaluations of `nextRow(&row, &err)` on the recording source: the flags
returned, and the calls the source has received when the last of them returns. -/
def Consumer.observe {σ ρ ε Ω : Type} (R : Rows σ ε) (rows : ρ) (n : Nat)
    (c : Consumer (σ × List (Event ε)) ρ ε Ω) : Option (List Bool × List (Event ε)) :=
  (c.calls (traced R) rows n).map fun r => (r.1.map Seen.alive, r.2.nextRow.vars.heap.2)

/-! ## The iterator and the consumer after a call -/

/-- The iterator after a call that finds the producer alive and the source with a row. -/
def Iterator.advanced {σ ρ ε Ω : Type} (R : Rows σ ε) (rows : ρ) (it : Iterator σ ρ ε Ω) :
    Iterator σ ρ ε Ω :=
  { vars := { heap := (R.Next it.vars.heap).2, err := it.vars.err, yielded := some rows },
    next := { options := it.next.options, finished := false } }

/-- The iterator after a call that finds the producer alive and the source exhausted. -/
def Iterator.terminated {σ ρ ε Ω : Type} (R : Rows σ ε) (it : Iterator σ ρ ε Ω) :
    Iterator σ ρ ε Ω :=
  { vars := { heap := afterClose R 1 it.vars.heap,
              err := if (errAfter R 1 it.vars.heap).isNone then closeErrAfter R 1 it.vars.heap
                     else errAfter R 1 it.vars.heap,
              yielded := it.vars.yielded },
    next := { options := it.next.options, finished := true } }

/-- The consumer after a call that returned true. -/
def Consumer.advanced {σ ρ ε Ω : Type} (R : Rows σ ε) (rows : ρ) (c : Consumer σ ρ ε Ω) :
    Consumer σ ρ ε Ω :=
  { nextRow := c.nextRow.advanced R rows, row := some rows, err := c.err }

/-- The consumer after the call that found the source exhausted. -/
def Consumer.terminated {σ ρ ε Ω : Type} (R : Rows σ ε) (c : Consumer σ ρ ε Ω) :
    Consumer σ ρ ε Ω :=
  { nextRow := c.nextRow.terminated R, row := c.row,
    err := if (c.nextRow.terminated R).vars.err.isSome then (c.nextRow.terminated R).vars.err
           else c.err }

/-- The consumer after `k` calls that returned true. -/
def Consumer.afterRows {σ ρ ε Ω : Type} (R : Rows σ ε) (rows : ρ) :
    Nat → Consumer σ ρ ε Ω → Consumer σ ρ ε Ω
  | 0, c => c
  | k + 1, c => Consumer.afterRows R rows k (c.advanced R rows)

/-- The `Next` calls recorded when `Next` is called `k` times from `heap` on. -/
def nextEvents {σ ε : Type} (R : Rows σ ε) : Nat → σ → List (Event ε)
  | 0, _ => []
  | k + 1, heap => Event.Next (R.Next heap).1 :: nextEvents R k (R.Next heap).2

/-! ## The fixtures of the tests -/

/-- The `fakeRows` of sqlcoro_test.go:165-172. The Go `int` fields are unbounded integers:
`consumed` counts the calls of `Next`, which stay far below `2^63`. -/
structure fakeRows (ε : Type) where
  rows : Int
  err : Option ε
  closeErr : Option ε
  consumed : Int
  closed : Bool
  deriving DecidableEq, Repr

/-- `fakeRows.Next` (sqlcoro_test.go:174-177). -/
def fakeRows.Next {ε : Type} (r : fakeRows ε) : Bool × fakeRows ε :=
  let r := { r with consumed := r.consumed + 1 }
  (decide (r.consumed ≤ r.rows), r)

/-- `fakeRows.Err` (sqlcoro_test.go:183-188); `none` is its panic. -/
def fakeRows.Err {ε : Type} (r : fakeRows ε) : Option (Option ε × fakeRows ε) :=
  if r.consumed ≤ r.rows then none else some (r.err, r)

/-- `fakeRows.Close` (sqlcoro_test.go:190-196); `none` is its panic. -/
def fakeRows.Close {ε : Type} (r : fakeRows ε) : Option (Option ε × fakeRows ε) :=
  if r.consumed ≤ r.rows then none else some (r.closeErr, { r with closed := true })

/-- A `fakeRows` as a row source. The heap is `none` once one of its methods has panicked,
which fails the test; nothing is promised about the calls made after that. -/
def fakeRows.methods (ε : Type) : Rows (Option (fakeRows ε)) ε where
  Next := fun h =>
    match h with
    | none => (false, none)
    | some r => ((fakeRows.Next r).1, some (fakeRows.Next r).2)
  Err := fun h =>
    match h.bind fakeRows.Err with
    | none => (none, none)
    | some (e, r) => (e, some r)
  Close := fun h =>
    match h.bind fakeRows.Close with
    | none => (none, none)
    | some (e, r) => (e, some r)

/-- The errors of the test table (sqlcoro_test.go:97-106). -/
inductive TestError where
  | scanning
  | closing
  deriving DecidableEq, Repr

/-- The source of a case of `TestIterateRows` (sqlcoro_test.go:120). As in the test, the
`closeErr` of the case is not copied into the fixture. -/
def testRows (rows : Int) (err : Option TestError) : fakeRows TestError :=
  { rows := rows, err := err, closeErr := none, consumed := 0, closed := false }

/-! ## Lemmas: one call of the returned function -/

section OneCall

variable {σ ρ ε Ω : Type} (R : Rows σ ε) (rows : ρ)

theorem NextFunc_of_finished (it : Iterator σ ρ ε Ω) (into : Option (Option ρ))
    (returned : Option (Option ε)) (h : it.next.finished = true) :
    NextFunc R rows it into returned =
      some { alive := false, into := into,
             returned := if it.vars.err.isSome && returned.isSome then some it.vars.err
                         else returned,
             it := it } := by
  simp [NextFunc, Coroutine.resume, h]

theorem NextFunc_of_more (it : Iterator σ ρ ε Ω) (slot : Option ρ)
    (returned : Option (Option ε)) (h : it.next.finished = false)
    (hmore : (R.Next it.vars.heap).1 = true) :
    NextFunc R rows it (some slot) returned =
      some { alive := true, into := some (some rows),
             returned := if it.vars.err.isSome && returned.isSome then some it.vars.err
                         else returned,
             it := it.advanced R rows } := by
  simp [NextFunc, Coroutine.resume, body, f, h, hmore, Iterator.advanced]

theorem NextFunc_of_exhausted (it : Iterator σ ρ ε Ω) (into : Option (Option ρ))
    (returned : Option (Option ε)) (h : it.next.finished = false)
    (hmore : (R.Next it.vars.heap).1 = false) :
    NextFunc R rows it into returned =
      some { alive := false, into := into,
             returned := if (it.terminated R).vars.err.isSome && returned.isSome
                         then some (it.terminated R).vars.err else returned,
             it := it.terminated R } := by
  simp [NextFunc, Coroutine.resume, body, f, f_defer, h, hmore, Iterator.terminated,
    afterClose, errAfter, closeErrAfter, afterNext]

end OneCall

section Calls

variable {σ ρ ε Ω : Type} (R : Rows σ ε) (rows : ρ)

theorem NextFunc_of_more_nil (it : Iterator σ ρ ε Ω) (returned : Option (Option ε))
    (h : it.next.finished = false) (hmore : (R.Next it.vars.heap).1 = true) :
    NextFunc R rows it none returned = none := by
  simp [NextFunc, Coroutine.resume, body, f, h, hmore]

/-- The three ways a call can go. -/
theorem NextFunc_cases (it : Iterator σ ρ ε Ω) (into : Option (Option ρ))
    (returned : Option (Option ε)) (o : Outcome σ ρ ε Ω)
    (h : NextFunc R rows it into returned = some o) :
    (it.next.finished = true ∧ o.alive = false ∧ o.it = it ∧ o.into = into) ∨
    (it.next.finished = false ∧ (R.Next it.vars.heap).1 = true ∧ o.alive = true ∧
      o.it = it.advanced R rows ∧ o.into = some (some rows)) ∨
    (it.next.finished = false ∧ (R.Next it.vars.heap).1 = false ∧ o.alive = false ∧
      o.it = it.terminated R ∧ o.into = into) := by
  cases hf : it.next.finished
  · cases hm : (R.Next it.vars.heap).1
    · rw [NextFunc_of_exhausted R rows it into returned hf hm] at h
      cases h
      simp
    · cases into with
      | none => rw [NextFunc_of_more_nil R rows it returned hf hm] at h; cases h
      | some slot =>
        rw [NextFunc_of_more R rows it slot returned hf hm] at h
        cases h
        simp
  · rw [NextFunc_of_finished R rows it into returned hf] at h
    cases h
    simp

/-- The content of the error slot after a call, from the iterator the call leaves. -/
theorem NextFunc_returned (it : Iterator σ ρ ε Ω) (into : Option (Option ρ))
    (returned : Option (Option ε)) (o : Outcome σ ρ ε Ω)
    (h : NextFunc R rows it into returned = some o) :
    o.returned = if o.it.vars.err.isSome && returned.isSome then some o.it.vars.err
                 else returned := by
  cases hf : it.next.finished
  · cases hm : (R.Next it.vars.heap).1
    · rw [NextFunc_of_exhausted R rows it into returned hf hm] at h
      cases h
      rfl
    · cases into with
      | none => rw [NextFunc_of_more_nil R rows it returned hf hm] at h; cases h
      | some slot =>
        rw [NextFunc_of_more R rows it slot returned hf hm] at h
        cases h
        simp [Iterator.advanced]
  · rw [NextFunc_of_finished R rows it into returned hf] at h
    cases h
    rfl

/-- While the producer has not returned, the captured `err` is nil; the configuration of
the coroutine never changes. -/
theorem Later.invariant {heap : σ} {zero : Ω} {options : List (Ω → Ω)}
    {it : Iterator σ ρ ε Ω} (h : Later R rows (IterateRows heap zero options) it) :
    (it.next.finished = false → it.vars.err = none) ∧
      it.next.options = options.foldl (fun o setOption => setOption o) zero := by
  induction h with
  | refl => simp [IterateRows, coro_New]
  | call _ hcall ih =>
    rcases NextFunc_cases R rows _ _ _ _ hcall with ⟨_, _, hit, _⟩ | ⟨hf, _, _, hit, _⟩ |
      ⟨_, _, _, hit, _⟩
    · rw [hit]; exact ih
    · rw [hit]; exact ⟨fun _ => ih.1 hf, ih.2⟩
    · rw [hit]; exact ⟨fun hc => by simp [Iterator.terminated] at hc, ih.2⟩

theorem Consumer.call_of_more (c : Consumer σ ρ ε Ω) (h : c.nextRow.next.finished = false)
    (herr : c.nextRow.vars.err = none) (hmore : (R.Next c.nextRow.vars.heap).1 = true) :
    c.call R rows = some (true, c.advanced R rows) := by
  simp [Consumer.call, NextFunc_of_more R rows c.nextRow c.row (some c.err) h hmore, herr,
    Consumer.advanced]

theorem Consumer.call_of_exhausted (c : Consumer σ ρ ε Ω)
    (h : c.nextRow.next.finished = false)
    (hmore : (R.Next c.nextRow.vars.heap).1 = false) :
    c.call R rows = some (false, c.terminated R) := by
  simp only [Consumer.call, Consumer.terminated,
    NextFunc_of_exhausted R rows c.nextRow (some c.row) (some c.err) h hmore]
  cases (c.nextRow.terminated R).vars.err <;> simp

end Calls

section Drive

variable {σ ρ ε Ω : Type} (R : Rows σ ε) (rows : ρ)

theorem Consumer.afterRows_spec (k : Nat) (c : Consumer σ ρ ε Ω) :
    (c.afterRows R rows k).nextRow.vars.heap = afterNext R k c.nextRow.vars.heap ∧
    (c.afterRows R rows k).nextRow.vars.err = c.nextRow.vars.err ∧
    (c.afterRows R rows k).nextRow.next.options = c.nextRow.next.options ∧
    (c.afterRows R rows k).err = c.err ∧
    (c.afterRows R rows k).row = (if k = 0 then c.row else some rows) ∧
    (c.afterRows R rows k).nextRow.vars.yielded =
      (if k = 0 then c.nextRow.vars.yielded else some rows) ∧
    (c.nextRow.next.finished = false → (c.afterRows R rows k).nextRow.next.finished = false) := by
  induction k generalizing c with
  | zero => simp [Consumer.afterRows, afterNext]
  | succ k ih =>
    obtain ⟨h1, h2, h3, h4, h5, h6, h7⟩ := ih (c.advanced R rows)
    simp only [Consumer.afterRows, afterNext]
    refine ⟨h1, h2, h3, h4, ?_, ?_, fun _ => h7 rfl⟩
    · rw [h5]; by_cases hk : k = 0 <;> simp [hk, Consumer.advanced]
    · rw [h6]; by_cases hk : k = 0 <;> simp [hk, Consumer.advanced, Iterator.advanced]

/-- The first `k ≤ N` calls on a source that yields `N` rows. -/
theorem Consumer.calls_while_rows (N k : Nat) (c : Consumer σ ρ ε Ω) (hk : k ≤ N)
    (hf : c.nextRow.next.finished = false) (herr : c.nextRow.vars.err = none)
    (hy : Yields R N c.nextRow.vars.heap) :
    c.calls R rows k =
      some (List.replicate k { alive := true, row := some rows, err := c.err },
        c.afterRows R rows k) := by
  induction k generalizing N c with
  | zero => simp [Consumer.calls, Consumer.afterRows]
  | succ k ih =>
    cases N with
    | zero => omega
    | succ N =>
      have h1 := Consumer.call_of_more R rows c hf herr hy.1
      have h2 := ih N (c.advanced R rows) (by omega) rfl herr hy.2
      simp only [Consumer.calls, h1, h2, Consumer.afterRows, List.replicate_succ]
      rfl

/-- The calls on a source that yields `N` rows, up to the one that returns false. -/
theorem Consumer.calls_of_yields (N : Nat) (c : Consumer σ ρ ε Ω)
    (hf : c.nextRow.next.finished = false) (herr : c.nextRow.vars.err = none)
    (hy : Yields R N c.nextRow.vars.heap) :
    c.calls R rows (N + 1) =
      some (List.replicate N { alive := true, row := some rows, err := c.err } ++
          [{ alive := false, row := ((c.afterRows R rows N).terminated R).row,
             err := ((c.afterRows R rows N).terminated R).err }],
        (c.afterRows R rows N).terminated R) := by
  induction N generalizing c with
  | zero =>
    have h1 := Consumer.call_of_exhausted R rows c hf hy
    simp only [Consumer.calls, h1, Consumer.afterRows, Consumer.terminated]
    rfl
  | succ N ih =>
    have h1 := Consumer.call_of_more R rows c hf herr hy.1
    have h2 := ih (c.advanced R rows) rfl herr hy.2
    rw [Consumer.calls, h1]
    simp only [h2, Consumer.afterRows, List.replicate_succ]
    rfl

end Drive

section Traced

variable {σ ε : Type} (R : Rows σ ε)

theorem traced_Next (h : σ × List (Event ε)) :
    (traced R).Next h = ((R.Next h.1).1, (R.Next h.1).2, h.2 ++ [Event.Next (R.Next h.1).1]) :=
  rfl

theorem traced_Err (h : σ × List (Event ε)) :
    (traced R).Err h = ((R.Err h.1).1, (R.Err h.1).2, h.2 ++ [Event.Err (R.Err h.1).1]) :=
  rfl

theorem traced_Close (h : σ × List (Event ε)) :
    (traced R).Close h =
      ((R.Close h.1).1, (R.Close h.1).2, h.2 ++ [Event.Close (R.Close h.1).1]) :=
  rfl

theorem afterNext_traced (k : Nat) (heap : σ) (log : List (Event ε)) :
    afterNext (traced R) k (heap, log) = (afterNext R k heap, log ++ nextEvents R k heap) := by
  induction k generalizing heap log with
  | zero => simp [afterNext, nextEvents]
  | succ k ih => simp [afterNext, nextEvents, traced_Next, ih]

theorem yields_traced (N : Nat) (heap : σ) (log : List (Event ε)) :
    Yields (traced R) N (heap, log) ↔ Yields R N heap := by
  induction N generalizing heap log with
  | zero => simp [Yields, traced]
  | succ N ih => simp only [Yields]; rw [show ((traced R).Next (heap, log)).2 =
      ((R.Next heap).2, log ++ [Event.Next (R.Next heap).1]) from rfl, ih]; rfl

theorem nextEvents_of_yields {N : Nat} {heap : σ} (h : Yields R N heap) (k : Nat)
    (hk : k ≤ N) : nextEvents R k heap = List.replicate k (Event.Next true) := by
  induction k generalizing N heap with
  | zero => rfl
  | succ k ih =>
    cases N with
    | zero => omega
    | succ N => simp [nextEvents, h.1, ih h.2 (by omega), List.replicate_succ]

theorem nextEvents_succ_of_yields {N : Nat} {heap : σ} (h : Yields R N heap) :
    nextEvents R (N + 1) heap = List.replicate N (Event.Next true) ++ [Event.Next false] := by
  induction N generalizing heap with
  | zero => simp only [nextEvents, List.replicate_zero, List.nil_append]; rw [show (R.Next heap).1 = false from h]
  | succ N ih =>
    rw [nextEvents, ih h.2, h.1]
    rfl

theorem afterClose_traced (k : Nat) (heap : σ) (log : List (Event ε)) :
    afterClose (traced R) k (heap, log) =
      (afterClose R k heap,
        log ++ nextEvents R k heap ++ [Event.Err (errAfter R k heap),
          Event.Close (closeErrAfter R k heap)]) := by
  simp [afterClose, errAfter, closeErrAfter, afterNext_traced, traced_Err, traced_Close]

end Traced

section Terminal

variable {σ ρ ε Ω : Type} (R : Rows σ ε) (rows : ρ)

theorem afterNext_succ (k : Nat) (heap : σ) :
    afterNext R (k + 1) heap = (R.Next (afterNext R k heap)).2 := by
  induction k generalizing heap with
  | zero => rfl
  | succ k ih => rw [afterNext, ih]; rfl

theorem errAfter_afterNext (k : Nat) (heap : σ) :
    errAfter R 1 (afterNext R k heap) = errAfter R (k + 1) heap := by
  rw [errAfter, errAfter, afterNext_succ R k heap]
  rfl

theorem closeErrAfter_afterNext (k : Nat) (heap : σ) :
    closeErrAfter R 1 (afterNext R k heap) = closeErrAfter R (k + 1) heap := by
  rw [closeErrAfter, closeErrAfter, afterNext_succ R k heap]
  rfl

theorem afterClose_afterNext (k : Nat) (heap : σ) :
    afterClose R 1 (afterNext R k heap) = afterClose R (k + 1) heap := by
  rw [afterClose, afterClose, afterNext_succ R k heap]
  rfl

/-- The consumer after `N` calls that returned true and the call that returned false. -/
theorem Consumer.terminal_spec (N : Nat) (c : Consumer σ ρ ε Ω) :
    (((c.afterRows R rows N).terminated R).row = if N = 0 then c.row else some rows) ∧
    (((c.afterRows R rows N).terminated R).nextRow.vars.err =
      if (errAfter R (N + 1) c.nextRow.vars.heap).isNone
      then closeErrAfter R (N + 1) c.nextRow.vars.heap
      else errAfter R (N + 1) c.nextRow.vars.heap) ∧
    (((c.afterRows R rows N).terminated R).err =
      if ((c.afterRows R rows N).terminated R).nextRow.vars.err.isSome
      then ((c.afterRows R rows N).terminated R).nextRow.vars.err else c.err) ∧
    ((c.afterRows R rows N).terminated R).nextRow.vars.heap =
      afterClose R (N + 1) c.nextRow.vars.heap ∧
    ((c.afterRows R rows N).terminated R).nextRow.next.finished = true ∧
    ((c.afterRows R rows N).terminated R).nextRow.next.options = c.nextRow.next.options := by
  obtain ⟨h1, _, h3, h4, h5, _, _⟩ := Consumer.afterRows_spec R rows N c
  refine ⟨?_, ?_, ?_, ?_, rfl, ?_⟩
  · simp only [Consumer.terminated]; exact h5
  · simp only [Consumer.terminated, Iterator.terminated, h1, errAfter_afterNext,
      closeErrAfter_afterNext]
  · simp only [Consumer.terminated, h4]
  · simp only [Consumer.terminated, Iterator.terminated, h1, afterClose_afterNext]
  · simp only [Consumer.terminated, Iterator.terminated, h3]

theorem counted_foldl (options : List (Ω → Ω)) (n : Nat) (zero : Ω) (log : List Nat) :
    ((options.enumFrom n).map fun p => fun (c : Ω × List Nat) => (p.2 c.1, c.2 ++ [p.1])).foldl
        (fun o setOption => setOption o) (zero, log) =
      (options.foldl (fun o setOption => setOption o) zero,
        log ++ List.range' n options.length) := by
  induction options generalizing n zero log with
  | nil => simp
  | cons g gs ih => simp [List.enumFrom, ih, List.range'_succ]

end Terminal

section TracedCalls

variable {σ ρ ε Ω : Type} (R : Rows σ ε) (rows : ρ)

theorem nextCalls_replicate (k : Nat) :
    nextCalls (List.replicate k (Event.Next true : Event ε)) = k := by
  simp [nextCalls, List.countP_replicate, Event.isNext]

theorem nextCalls_complete (N : Nat) (e c : Option ε) :
    nextCalls (List.replicate N (Event.Next true) ++
      [Event.Next false, Event.Err e, Event.Close c]) = N + 1 := by
  simp [nextCalls, List.countP_replicate, List.countP_cons, Event.isNext]

/-- On the recording source, the first `k ≤ N` calls and the calls of the source so far. -/
theorem traced_calls_while_rows (heap : σ) (zero : Ω) (options : List (Ω → Ω)) (N k : Nat)
    (row : Option ρ) (err : Option ε) (hk : k ≤ N) (hy : Yields R N heap) :
    ∃ c' : Consumer (σ × List (Event ε)) ρ ε Ω,
      Consumer.calls (traced R) rows k
          { nextRow := IterateRows (heap, []) zero options, row := row, err := err } =
        some (List.replicate k { alive := true, row := some rows, err := err }, c') ∧
      c'.nextRow.vars.heap = (afterNext R k heap, List.replicate k (Event.Next true)) := by
  have hy' : Yields (traced R) N (heap, []) := (yields_traced R N heap []).2 hy
  refine ⟨_, Consumer.calls_while_rows (traced R) rows N k
    { nextRow := IterateRows (heap, []) zero options, row := row, err := err } hk rfl rfl hy', ?_⟩
  rw [(Consumer.afterRows_spec (traced R) rows k _).1]
  change afterNext (traced R) k (heap, []) = _
  rw [afterNext_traced, nextEvents_of_yields R hy k hk, List.nil_append]

/-- On the recording source, the calls up to the one that returns false, and the calls
the source has received by then. -/
theorem traced_calls_complete (heap : σ) (zero : Ω) (options : List (Ω → Ω)) (N : Nat)
    (row : Option ρ) (err : Option ε) (hy : Yields R N heap) :
    ∃ (last : Seen ρ ε) (c' : Consumer (σ × List (Event ε)) ρ ε Ω),
      Consumer.calls (traced R) rows (N + 1)
          { nextRow := IterateRows (heap, []) zero options, row := row, err := err } =
        some (List.replicate N { alive := true, row := some rows, err := err } ++ [last], c') ∧
      last.alive = false ∧
      c'.nextRow.vars.heap = (afterClose R (N + 1) heap,
        List.replicate N (Event.Next true) ++
          [Event.Next false, Event.Err (errAfter R (N + 1) heap),
            Event.Close (closeErrAfter R (N + 1) heap)]) := by
  have hy' : Yields (traced R) N (heap, []) := (yields_traced R N heap []).2 hy
  refine ⟨_, _, Consumer.calls_of_yields (traced R) rows N
    { nextRow := IterateRows (heap, []) zero options, row := row, err := err } rfl rfl hy',
    rfl, ?_⟩
  rw [(Consumer.terminal_spec (traced R) rows N _).2.2.2.1]
  change afterClose (traced R) (N + 1) (heap, []) = _
  rw [afterClose_traced, nextEvents_succ_of_yields R hy]
  simp

/-- The calls an iterator has made on the recording source. -/
theorem Later.trace_shape {σ ρ ε Ω : Type} (R : Rows σ ε) (rows : ρ) (heap : σ) (zero : Ω)
    (options : List (Ω → Ω)) (it : Iterator (σ × List (Event ε)) ρ ε Ω)
    (h : Later (traced R) rows (IterateRows (heap, []) zero options) it) :
    (it.next.finished = false → ∃ k, it.vars.heap.2 = List.replicate k (Event.Next true)) ∧
    (it.next.finished = true → ∃ k e c, it.vars.heap.2 =
      List.replicate k (Event.Next true) ++ [Event.Next false, Event.Err e, Event.Close c]) := by
  induction h with
  | refl => exact ⟨fun _ => ⟨0, rfl⟩, fun hc => by simp [IterateRows, coro_New] at hc⟩
  | @call it' into returned o hl hcall ih =>
    rcases NextFunc_cases (traced R) rows _ _ _ _ hcall with ⟨hf, _, hit, _⟩ |
      ⟨hf, hm, _, hit, _⟩ | ⟨hf, hm, _, hit, _⟩
    · rw [hit]; exact ih
    · rw [hit]
      refine ⟨fun _ => ?_, fun hc => by simp [Iterator.advanced] at hc⟩
      obtain ⟨k, hk⟩ := ih.1 hf
      refine ⟨k + 1, ?_⟩
      change it'.vars.heap.2 ++ [Event.Next (R.Next it'.vars.heap.1).1] = _
      rw [show (R.Next it'.vars.heap.1).1 = true from hm, hk, List.replicate_succ']
    · rw [hit]
      refine ⟨fun hc => by simp [Iterator.terminated] at hc, fun _ => ?_⟩
      obtain ⟨k, hk⟩ := ih.1 hf
      refine ⟨k, errAfter R 1 it'.vars.heap.1, closeErrAfter R 1 it'.vars.heap.1, ?_⟩
      change (afterClose (traced R) 1 (it'.vars.heap.1, it'.vars.heap.2)).2 = _
      rw [afterClose_traced, hk]
      simp only [nextEvents, show (R.Next it'.vars.heap.1).1 = false from hm]
      simp

/-- Calls on an iterator whose producer has returned leave the iterator as it is. -/
theorem Later.eq_of_finished {σ ρ ε Ω : Type} (R : Rows σ ε) (rows : ρ)
    (it it' : Iterator σ ρ ε Ω) (hf : it.next.finished = true) (h : Later R rows it it') :
    it' = it := by
  induction h with
  | refl => rfl
  | @call it'' into returned o _ hcall ih =>
    subst ih
    rw [NextFunc_of_finished R rows _ into returned hf] at hcall
    cases hcall
    rfl

/-- A call that returns false leaves an iterator whose producer has returned. -/
theorem NextFunc_finished_of_not_alive {σ ρ ε Ω : Type} (R : Rows σ ε) (rows : ρ)
    (it : Iterator σ ρ ε Ω) (into : Option (Option ρ)) (returned : Option (Option ε))
    (o : Outcome σ ρ ε Ω) (h : NextFunc R rows it into returned = some o)
    (ha : o.alive = false) : o.it.next.finished = true := by
  rcases NextFunc_cases R rows _ _ _ _ h with ⟨hf, _, hit, _⟩ | ⟨_, _, hal, _, _⟩ |
    ⟨_, _, _, hit, _⟩
  · rw [hit]; exact hf
  · rw [hal] at ha; cases ha
  · rw [hit]; rfl

end TracedCalls

/-! ## The properties -/

section Properties

variable {σ ρ ε Ω : Type}

/-- C1: on a source whose `Next` returns true exactly `N` times and then false, and whose
`Err` and `Close` return nil, the function returned by `IterateRows`, called with the
addresses of a row variable and of an error variable holding nil, returns true on each of
its first `N` calls, each leaving the reference `rows` in the row variable and nil in the
error variable, and returns false on call `N + 1` with the error variable still nil. -/
theorem IterateRows_yields_every_row (R : Rows σ ε) (rows : ρ) (heap : σ) (zero : Ω)
    (options : List (Ω → Ω)) (N : Nat) (row : Option ρ)
    (hy : Yields R N heap) (hE : errAfter R (N + 1) heap = none)
    (hF : closeErrAfter R (N + 1) heap = none) :
    (Consumer.calls R rows (N + 1)
        { nextRow := IterateRows heap zero options, row := row, err := none }).map Prod.fst =
      some (List.replicate N { alive := true, row := some rows, err := none } ++
        [{ alive := false, row := if N = 0 then row else some rows, err := none }]) := by
  have h := Consumer.calls_of_yields R rows N
    { nextRow := IterateRows heap zero options, row := row, err := none } rfl rfl hy
  obtain ⟨h1, h2, h3, -⟩ := Consumer.terminal_spec R rows N
    { nextRow := IterateRows heap zero options, row := row, err := (none : Option ε) }
  change _ = if (errAfter R (N + 1) heap).isNone then closeErrAfter R (N + 1) heap
    else errAfter R (N + 1) heap at h2
  rw [hE, hF] at h2
  rw [h2] at h3
  rw [h, h1, h3]
  rfl

/-- C1 at the first case of `TestIterateRows`: three rows, no error. -/
theorem IterateRows_yields_every_row_witness :
    Yields (fakeRows.methods TestError) 3 (some (testRows 3 none)) ∧
    (Consumer.calls (fakeRows.methods TestError) (7 : Nat) (3 + 1)
        { nextRow := IterateRows (some (testRows 3 none)) () [], row := none,
          err := none }).map Prod.fst =
      some (List.replicate 3 { alive := true, row := some 7, err := none } ++
        [{ alive := false, row := if 3 = 0 then none else some 7, err := none }]) :=
  ⟨by decide,
    IterateRows_yields_every_row (fakeRows.methods TestError) 7 (some (testRows 3 none)) () []
      3 none (by decide) (by decide) (by decide)⟩

/-- C2: on a source yielding `N` rows whose `Err` returns `E` and whose `Close` returns `F`,
the first `N` calls return true and leave the caller's error variable as it was, and call
`N + 1` returns false leaving in it `E` when `E` is not nil, and `F` when `E` is nil and `F`
is not. -/
theorem IterateRows_terminal_error (R : Rows σ ε) (rows : ρ) (heap : σ) (zero : Ω)
    (options : List (Ω → Ω)) (N : Nat) (row : Option ρ) (err : Option ε)
    (hy : Yields R N heap) :
    ∃ last : Seen ρ ε,
      (Consumer.calls R rows (N + 1)
          { nextRow := IterateRows heap zero options, row := row, err := err }).map Prod.fst =
        some (List.replicate N { alive := true, row := some rows, err := err } ++ [last]) ∧
      last.alive = false ∧
      (∀ e, errAfter R (N + 1) heap = some e → last.err = some e) ∧
      (errAfter R (N + 1) heap = none →
        ∀ e, closeErrAfter R (N + 1) heap = some e → last.err = some e) := by
  have h := Consumer.calls_of_yields R rows N
    { nextRow := IterateRows heap zero options, row := row, err := err } rfl rfl hy
  obtain ⟨-, h2, h3, -⟩ := Consumer.terminal_spec R rows N
    { nextRow := IterateRows heap zero options, row := row, err := err }
  change _ = if (errAfter R (N + 1) heap).isNone then closeErrAfter R (N + 1) heap
    else errAfter R (N + 1) heap at h2
  rw [h2] at h3
  refine ⟨_, by rw [h]; rfl, rfl, ?_, ?_⟩
  · intro e he
    show (Consumer.terminated R _).err = some e
    rw [h3, he]; rfl
  · intro hn e he
    show (Consumer.terminated R _).err = some e
    rw [h3, hn, he]; rfl

/-- C2 at three rows of a `fakeRows` with both errors set: the scanning error is reported. -/
theorem IterateRows_terminal_error_witness :
    Yields (fakeRows.methods TestError) 3
      (some { testRows 3 (some .scanning) with closeErr := some .closing }) ∧
    ∃ last : Seen Nat TestError,
      (Consumer.calls (fakeRows.methods TestError) (7 : Nat) (3 + 1)
          { nextRow := IterateRows
              (some { testRows 3 (some .scanning) with closeErr := some .closing }) () [],
            row := none, err := none }).map Prod.fst =
        some (List.replicate 3 { alive := true, row := some 7, err := none } ++ [last]) ∧
      last.alive = false ∧
      (∀ e, errAfter (fakeRows.methods TestError) (3 + 1)
          (some { testRows 3 (some .scanning) with closeErr := some .closing }) = some e →
        last.err = some e) ∧
      (errAfter (fakeRows.methods TestError) (3 + 1)
          (some { testRows 3 (some .scanning) with closeErr := some .closing }) = none →
        ∀ e, closeErrAfter (fakeRows.methods TestError) (3 + 1)
          (some { testRows 3 (some .scanning) with closeErr := some .closing }) = some e →
        last.err = some e) :=
  ⟨by decide,
    IterateRows_terminal_error (fakeRows.methods TestError) 7
      (some { testRows 3 (some .scanning) with closeErr := some .closing }) () [] 3 none none
      (by decide)⟩

/-- C3: on a source yielding `N` rows, whatever `Err` and `Close` return, the calls the
source has received when call `k ≤ N` returns true are `k` calls of `Next` (no `Close`
yet), and when call `N + 1` returns false they are those `N` calls, the `Next` that
returned false, `Err` and then `Close`: one `Close`, after the last `Next`, made before
the false result is returned. -/
theorem Close_once_after_last_Next (R : Rows σ ε) (rows : ρ) (heap : σ) (zero : Ω)
    (options : List (Ω → Ω)) (N : Nat) (row : Option ρ) (err : Option ε)
    (hy : Yields R N heap) :
    (∀ k, k ≤ N →
      Consumer.observe R rows k
          { nextRow := IterateRows (heap, []) zero options, row := row, err := err } =
        some (List.replicate k true, List.replicate k (Event.Next true))) ∧
    Consumer.observe R rows (N + 1)
        { nextRow := IterateRows (heap, []) zero options, row := row, err := err } =
      some (List.replicate N true ++ [false],
        List.replicate N (Event.Next true) ++
          [Event.Next false, Event.Err (errAfter R (N + 1) heap),
            Event.Close (closeErrAfter R (N + 1) heap)]) := by
  constructor
  · intro k hk
    obtain ⟨c', h1, h2⟩ := traced_calls_while_rows R rows heap zero options N k row err hk hy
    simp [Consumer.observe, h1, h2]
  · obtain ⟨last, c', h1, h2, h3⟩ := traced_calls_complete R rows heap zero options N row err hy
    simp [Consumer.observe, h1, h2, h3]

/-- C3 at the last case of `TestIterateRows`: no rows and a scanning error. -/
theorem Close_once_after_last_Next_witness :
    Yields (fakeRows.methods TestError) 0 (some (testRows 0 (some .scanning))) ∧
    ((∀ k, k ≤ 0 →
      Consumer.observe (fakeRows.methods TestError) (7 : Nat) k
          { nextRow := IterateRows (some (testRows 0 (some .scanning)), []) () [],
            row := none, err := none } =
        some (List.replicate k true, List.replicate k (Event.Next true))) ∧
    Consumer.observe (fakeRows.methods TestError) (7 : Nat) (0 + 1)
        { nextRow := IterateRows (some (testRows 0 (some .scanning)), []) () [],
          row := none, err := none } =
      some (List.replicate 0 true ++ [false],
        List.replicate 0 (Event.Next true) ++
          [Event.Next false,
            Event.Err (errAfter (fakeRows.methods TestError) (0 + 1)
              (some (testRows 0 (some .scanning)))),
            Event.Close (closeErrAfter (fakeRows.methods TestError) (0 + 1)
              (some (testRows 0 (some .scanning))))])) :=
  ⟨by decide,
    Close_once_after_last_Next (fakeRows.methods TestError) 7
      (some (testRows 0 (some .scanning))) () [] 0 none none (by decide)⟩

/-- C4: whatever the source and whatever calls have been made of the function returned by
`IterateRows`, the calls the source has received are: while the producer has not returned,
calls of `Next` that returned true and nothing else (no `Err`); once it has returned, those
calls, then the `Next` that returned false, then `Err`, then `Close`, each of the three
once. A call that returns true adds one `Next` that returned true and nothing else. -/
theorem Err_once_between_last_Next_and_Close (R : Rows σ ε) (rows : ρ) (heap : σ) (zero : Ω)
    (options : List (Ω → Ω)) (it : Iterator (σ × List (Event ε)) ρ ε Ω)
    (h : Later (traced R) rows (IterateRows (heap, []) zero options) it) :
    (it.next.finished = false → ∃ k, it.vars.heap.2 = List.replicate k (Event.Next true)) ∧
    (it.next.finished = true → ∃ k e c, it.vars.heap.2 =
      List.replicate k (Event.Next true) ++ [Event.Next false, Event.Err e, Event.Close c]) ∧
    (∀ into returned o, NextFunc (traced R) rows it into returned = some o → o.alive = true →
      o.it.vars.heap.2 = it.vars.heap.2 ++ [Event.Next true]) := by
  obtain ⟨h1, h2⟩ := Later.trace_shape R rows heap zero options it h
  refine ⟨h1, h2, ?_⟩
  intro into returned o ho ha
  rcases NextFunc_cases (traced R) rows _ _ _ _ ho with ⟨_, hal, _, _⟩ | ⟨_, hm, _, hit, _⟩ |
    ⟨_, _, hal, _, _⟩
  · rw [hal] at ha; cases ha
  · rw [hit]
    change it.vars.heap.2 ++ [Event.Next (R.Next it.vars.heap.1).1] = _
    rw [show (R.Next it.vars.heap.1).1 = true from hm]
  · rw [hal] at ha; cases ha

/-- C4 at a `fakeRows` without rows, after the call that returns false. -/
theorem Err_once_between_last_Next_and_Close_witness :
    Later (traced (fakeRows.methods TestError)) (7 : Nat)
      (IterateRows (some (testRows 0 none), []) () [])
      ((IterateRows (some (testRows 0 none), []) () []).terminated
        (traced (fakeRows.methods TestError))) ∧
    ((((IterateRows (ρ := Nat) (some (testRows 0 none), []) () []).terminated
        (traced (fakeRows.methods TestError))).next.finished = false →
      ∃ k, ((IterateRows (ρ := Nat) (some (testRows 0 none), []) () []).terminated
        (traced (fakeRows.methods TestError))).vars.heap.2 =
          List.replicate k (Event.Next true)) ∧
    (((IterateRows (ρ := Nat) (some (testRows 0 none), []) () []).terminated
        (traced (fakeRows.methods TestError))).next.finished = true →
      ∃ k e c, ((IterateRows (ρ := Nat) (some (testRows 0 none), []) () []).terminated
        (traced (fakeRows.methods TestError))).vars.heap.2 =
          List.replicate k (Event.Next true) ++
            [Event.Next false, Event.Err e, Event.Close c]) ∧
    (∀ into returned o,
      NextFunc (traced (fakeRows.methods TestError)) (7 : Nat)
        ((IterateRows (some (testRows 0 none), []) () []).terminated
          (traced (fakeRows.methods TestError))) into returned = some o →
      o.alive = true →
      o.it.vars.heap.2 =
        ((IterateRows (ρ := Nat) (some (testRows 0 none), []) () []).terminated
          (traced (fakeRows.methods TestError))).vars.heap.2 ++ [Event.Next true])) :=
  have hl : Later (traced (fakeRows.methods TestError)) (7 : Nat)
      (IterateRows (some (testRows 0 none), []) () [])
      ((IterateRows (some (testRows 0 none), []) () []).terminated
        (traced (fakeRows.methods TestError))) :=
    Later.call Later.refl
      (NextFunc_of_exhausted (traced (fakeRows.methods TestError)) 7
        (IterateRows (some (testRows 0 none), []) () []) none none rfl (by decide))
  ⟨hl, Err_once_between_last_Next_and_Close (fakeRows.methods TestError) 7
    (some (testRows 0 none)) () [] _ hl⟩

/-- C5: once a call of the function returned by `IterateRows` has returned false, then
after any further calls, every call, whatever pointers it is given, returns false without
failing and leaves the iterator as that first call left it: the source, with the record of
the calls it has received, is as it was, so no `Next`, `Err` or `Close` has been added. -/
theorem terminated_is_absorbing (R : Rows σ ε) (rows : ρ)
    (it : Iterator (σ × List (Event ε)) ρ ε Ω) (into : Option (Option ρ))
    (returned : Option (Option ε)) (o : Outcome (σ × List (Event ε)) ρ ε Ω)
    (h : NextFunc (traced R) rows it into returned = some o) (ha : o.alive = false)
    (it' : Iterator (σ × List (Event ε)) ρ ε Ω) (hl : Later (traced R) rows o.it it')
    (into' : Option (Option ρ)) (returned' : Option (Option ε)) :
    ∃ o', NextFunc (traced R) rows it' into' returned' = some o' ∧ o'.alive = false ∧
      o'.it = o.it ∧ o'.it.vars.heap.2 = o.it.vars.heap.2 := by
  have hf := NextFunc_finished_of_not_alive (traced R) rows it into returned o h ha
  have he := Later.eq_of_finished (traced R) rows o.it it' hf hl
  subst he
  exact ⟨_, NextFunc_of_finished (traced R) rows _ into' returned' hf, rfl, rfl, rfl⟩

/-- C5 at a `fakeRows` without rows: the call after the one that returned false. -/
theorem terminated_is_absorbing_witness :
    NextFunc (traced (fakeRows.methods TestError)) (7 : Nat)
        (IterateRows (some (testRows 0 none), []) () []) (some none) (some none) =
      some { alive := false, into := some none, returned := some none,
             it := (IterateRows (some (testRows 0 none), []) () []).terminated
               (traced (fakeRows.methods TestError)) } ∧
    ∃ o', NextFunc (traced (fakeRows.methods TestError)) (7 : Nat)
        ((IterateRows (some (testRows 0 none), []) () []).terminated
          (traced (fakeRows.methods TestError))) none none = some o' ∧
      o'.alive = false ∧
      o'.it = (IterateRows (some (testRows 0 none), []) () []).terminated
        (traced (fakeRows.methods TestError)) ∧
      o'.it.vars.heap.2 =
        ((IterateRows (ρ := Nat) (some (testRows 0 none), []) () []).terminated
          (traced (fakeRows.methods TestError))).vars.heap.2 :=
  ⟨rfl,
    terminated_is_absorbing (fakeRows.methods TestError) 7
      (IterateRows (some (testRows 0 none), []) () []) (some none) (some none)
      { alive := false, into := some none, returned := some none,
        it := (IterateRows (some (testRows 0 none), []) () []).terminated
          (traced (fakeRows.methods TestError)) }
      rfl rfl _ Later.refl none none⟩

/-- C6: a call made with a nil error pointer returns the same flag, leaves the same row
slot and the same iterator as the same call made with the address of an error variable
holding `x`, the nil pointer staying nil (nothing is stored through it); as that call, it
fails only on a nil row pointer, never on a row variable. -/
theorem nil_error_slot_is_dropped (R : Rows σ ε) (rows : ρ) (it : Iterator σ ρ ε Ω)
    (into : Option (Option ρ)) (x : Option ε) :
    ((NextFunc R rows it into none).map fun o => (o.alive, o.into, o.it, o.returned)) =
      ((NextFunc R rows it into (some x)).map fun o => (o.alive, o.into, o.it, none)) ∧
    ∀ slot : Option ρ, (NextFunc R rows it (some slot) none).isSome = true := by
  constructor
  · simp only [NextFunc]
    split <;> simp
  · intro slot
    simp [NextFunc]

/-- C7: whatever calls have been made of the function returned by `IterateRows`, a call
that returns true leaves the caller's error slot as it was (a nil pointer, or a variable
with its content unchanged); so it is a call returning false that first stores the error. -/
theorem error_slot_unchanged_while_alive (R : Rows σ ε) (rows : ρ) (heap : σ) (zero : Ω)
    (options : List (Ω → Ω)) (it : Iterator σ ρ ε Ω)
    (h : Later R rows (IterateRows heap zero options) it) (into : Option (Option ρ))
    (returned : Option (Option ε)) (o : Outcome σ ρ ε Ω)
    (hc : NextFunc R rows it into returned = some o) (ha : o.alive = true) :
    o.returned = returned := by
  have hr := NextFunc_returned R rows it into returned o hc
  have hinv := (Later.invariant R rows (Later.call h hc)).1
  have hf : o.it.next.finished = false := by
    rcases NextFunc_cases R rows _ _ _ _ hc with ⟨_, hal, _, _⟩ | ⟨_, _, _, hit, _⟩ |
      ⟨_, _, hal, _, _⟩
    · rw [hal] at ha; cases ha
    · rw [hit]; rfl
    · rw [hal] at ha; cases ha
  rw [hr, hinv hf]
  rfl

/-- C7 at the first call on a `fakeRows` of three rows with a scanning error. -/
theorem error_slot_unchanged_while_alive_witness :
    Later (fakeRows.methods TestError) (7 : Nat)
      (IterateRows (some (testRows 3 (some .scanning))) () [])
      (IterateRows (some (testRows 3 (some .scanning))) () []) ∧
    NextFunc (fakeRows.methods TestError) (7 : Nat)
        (IterateRows (some (testRows 3 (some .scanning))) () []) (some none)
        (some (some .closing)) =
      some { alive := true, into := some (some 7), returned := some (some .closing),
             it := (IterateRows (some (testRows 3 (some .scanning))) () []).advanced
               (fakeRows.methods TestError) 7 } ∧
    some (some TestError.closing) = some (some TestError.closing) :=
  ⟨Later.refl, rfl,
    error_slot_unchanged_while_alive (fakeRows.methods TestError) 7
      (some (testRows 3 (some .scanning))) () [] _ Later.refl (some none)
      (some (some .closing))
      { alive := true, into := some (some 7), returned := some (some .closing),
        it := (IterateRows (some (testRows 3 (some .scanning))) () []).advanced
          (fakeRows.methods TestError) 7 }
      rfl rfl⟩

/-- C8: the options given to `IterateRows` reach `coro.New` as they are and in order: with
each option also recording its position when applied, the configuration held by the
coroutine right after `IterateRows`, and after any calls of the returned function on any
source, is the options applied in order to the zero configuration, and the record is
`0, 1, ..., length - 1`: each option applied once. -/
theorem options_applied_once_in_order (R : Rows σ ε) (rows : ρ) (heap : σ) (zero : Ω)
    (options : List (Ω → Ω)) (it : Iterator σ ρ ε (Ω × List Nat))
    (h : Later R rows (IterateRows heap (zero, []) (counted options)) it) :
    it.next.options =
      (options.foldl (fun o setOption => setOption o) zero, List.range options.length) := by
  rw [(Later.invariant R rows h).2, counted, List.enum, counted_foldl, List.nil_append,
    List.range_eq_range']

/-- C8 at the two options of `TestIterateRows`, each setting its own flag. -/
theorem options_applied_once_in_order_witness :
    Later (fakeRows.methods TestError) (7 : Nat)
      (IterateRows (some (testRows 3 none)) ((false, false), [])
        (counted [fun o => (true, o.2), fun o => (o.1, true)]))
      (IterateRows (some (testRows 3 none)) ((false, false), [])
        (counted [fun o => (true, o.2), fun o => (o.1, true)])) ∧
    (IterateRows (ρ := Nat) (ε := TestError) (some (testRows 3 none)) ((false, false), [])
        (counted [fun o => (true, o.2), fun o => (o.1, true)])).next.options =
      ([fun o => (true, o.2), fun o => (o.1, true)].foldl
          (fun (o : Bool × Bool) setOption => setOption o) (false, false),
        List.range [fun (o : Bool × Bool) => (true, o.2), fun o => (o.1, true)].length) :=
  ⟨Later.refl,
    options_applied_once_in_order (fakeRows.methods TestError) 7 (some (testRows 3 none))
      (false, false) [fun o => (true, o.2), fun o => (o.1, true)] _ Later.refl⟩

/-- C9: `IterateRows` makes no call of `Next`; on a source yielding `N` rows, when call
`k` of the returned function (`1 ≤ k ≤ N`) returns true with `rows` in the row slot, the
source has received `k` calls of `Next` and is in the state its `k`-th `Next` left it in;
when call `N + 1` returns false it has received `N + 1` calls of `Next`. -/
theorem Next_called_once_per_call (R : Rows σ ε) (rows : ρ) (heap : σ) (zero : Ω)
    (options : List (Ω → Ω)) (N : Nat) (row : Option ρ) (err : Option ε)
    (hy : Yields R N heap) :
    nextCalls
      (IterateRows (ρ := ρ) (ε := ε) (heap, ([] : List (Event ε))) zero options).vars.heap.2 =
        0 ∧
    (∀ k, 1 ≤ k → k ≤ N →
      ∃ seen c', Consumer.calls (traced R) rows k
          { nextRow := IterateRows (heap, []) zero options, row := row, err := err } =
            some (seen, c') ∧
        seen.getLast? = some { alive := true, row := some rows, err := err } ∧
        c'.nextRow.vars.heap.1 = afterNext R k heap ∧
        nextCalls c'.nextRow.vars.heap.2 = k) ∧
    (∃ seen c', Consumer.calls (traced R) rows (N + 1)
          { nextRow := IterateRows (heap, []) zero options, row := row, err := err } =
            some (seen, c') ∧
        (seen.getLast?.map Seen.alive) = some false ∧
        nextCalls c'.nextRow.vars.heap.2 = N + 1) := by
  refine ⟨rfl, ?_, ?_⟩
  · intro k h1 hk
    obtain ⟨c', hc, hh⟩ := traced_calls_while_rows R rows heap zero options N k row err hk hy
    refine ⟨_, c', hc, ?_, by rw [hh], by rw [hh]; exact nextCalls_replicate k⟩
    obtain ⟨j, rfl⟩ : ∃ j, k = j + 1 := ⟨k - 1, by omega⟩
    rw [List.replicate_succ']
    simp
  · obtain ⟨last, c', hc, hl, hh⟩ := traced_calls_complete R rows heap zero options N row err hy
    refine ⟨_, c', hc, by simp [hl], by rw [hh]; exact nextCalls_complete N _ _⟩

/-- C9 at the first case of `TestIterateRows`: three rows. -/
theorem Next_called_once_per_call_witness :
    Yields (fakeRows.methods TestError) 3 (some (testRows 3 none)) ∧
    (nextCalls (IterateRows (ρ := Nat) (ε := TestError)
      (some (testRows 3 none), ([] : List (Event TestError))) () []).vars.heap.2 = 0 ∧
    (∀ k, 1 ≤ k → k ≤ 3 →
      ∃ seen c', Consumer.calls (traced (fakeRows.methods TestError)) (7 : Nat) k
          { nextRow := IterateRows (some (testRows 3 none), []) () [], row := none,
            err := none } = some (seen, c') ∧
        seen.getLast? = some { alive := true, row := some 7, err := none } ∧
        c'.nextRow.vars.heap.1 =
          afterNext (fakeRows.methods TestError) k (some (testRows 3 none)) ∧
        nextCalls c'.nextRow.vars.heap.2 = k) ∧
    (∃ seen c', Consumer.calls (traced (fakeRows.methods TestError)) (7 : Nat) (3 + 1)
          { nextRow := IterateRows (some (testRows 3 none), []) () [], row := none,
            err := none } = some (seen, c') ∧
        (seen.getLast?.map Seen.alive) = some false ∧
        nextCalls c'.nextRow.vars.heap.2 = 3 + 1)) :=
  ⟨by decide,
    Next_called_once_per_call (fakeRows.methods TestError) 7 (some (testRows 3 none)) () []
      3 none none (by decide)⟩

/-- C10: whatever calls have been made of the function returned by `IterateRows`, a call
leaves in the error slot the captured error exactly when the pointer is not nil and the
producer has returned with a non-nil error, and otherwise leaves the slot as it was; it
leaves in the row slot the yielded row exactly when it returns true, and otherwise leaves
the slot as it was. So when the error of the producer is nil the error slot keeps the
caller's value, and a call returning false keeps the row slot. -/
theorem slots_written_conditionally (R : Rows σ ε) (rows : ρ) (heap : σ) (zero : Ω)
    (options : List (Ω → Ω)) (it : Iterator σ ρ ε Ω)
    (h : Later R rows (IterateRows heap zero options) it) (into : Option (Option ρ))
    (returned : Option (Option ε)) (o : Outcome σ ρ ε Ω)
    (hc : NextFunc R rows it into returned = some o) :
    o.returned =
      (if returned.isSome = true ∧ o.it.next.finished = true ∧ o.it.vars.err.isSome = true
       then some o.it.vars.err else returned) ∧
    o.into = (if o.alive = true then some o.it.vars.yielded else into) ∧
    (o.it.vars.err = none → o.returned = returned) ∧
    (o.alive = false → o.into = into) := by
  have hr := NextFunc_returned R rows it into returned o hc
  have hinv := (Later.invariant R rows (Later.call h hc)).1
  have hinto : o.into = (if o.alive = true then some o.it.vars.yielded else into) := by
    rcases NextFunc_cases R rows _ _ _ _ hc with ⟨_, hal, _, hi⟩ | ⟨_, _, hal, hit, hi⟩ |
      ⟨_, _, hal, _, hi⟩
    · rw [hal, hi]; rfl
    · rw [hal, hi, hit]; rfl
    · rw [hal, hi]; rfl
  refine ⟨?_, hinto, ?_, ?_⟩
  · rw [hr]
    cases hf : o.it.next.finished
    · rw [hinv hf]; simp
    · cases o.it.vars.err <;> cases returned <;> simp
  · intro he
    rw [hr, he]; rfl
  · intro ha
    rw [hinto, ha]; rfl

/-- C10 at the only call on a `fakeRows` without rows and with a scanning error. -/
theorem slots_written_conditionally_witness :
    Later (fakeRows.methods TestError) (7 : Nat)
      (IterateRows (some (testRows 0 (some .scanning))) () [])
      (IterateRows (some (testRows 0 (some .scanning))) () []) ∧
    NextFunc (fakeRows.methods TestError) (7 : Nat)
        (IterateRows (some (testRows 0 (some .scanning))) () []) (some (some 5))
        (some (some .closing)) =
      some { alive := false, into := some (some 5), returned := some (some .scanning),
             it := (IterateRows (some (testRows 0 (some .scanning))) () []).terminated
               (fakeRows.methods TestError) } ∧
    (some (some TestError.scanning) =
      (if (some (some TestError.closing)).isSome = true ∧
          ((IterateRows (ρ := Nat) (some (testRows 0 (some .scanning))) () []).terminated
            (fakeRows.methods TestError)).next.finished = true ∧
          ((IterateRows (ρ := Nat) (some (testRows 0 (some .scanning))) () []).terminated
            (fakeRows.methods TestError)).vars.err.isSome = true
       then some ((IterateRows (ρ := Nat) (some (testRows 0 (some .scanning))) () []).terminated
            (fakeRows.methods TestError)).vars.err
       else some (some TestError.closing)) ∧
    some (some 5) = (if false = true
      then some ((IterateRows (ρ := Nat) (some (testRows 0 (some .scanning))) () []).terminated
        (fakeRows.methods TestError)).vars.yielded
      else some (some 5)) ∧
    (((IterateRows (ρ := Nat) (some (testRows 0 (some .scanning))) () []).terminated
        (fakeRows.methods TestError)).vars.err = none →
      some (some TestError.scanning) = some (some TestError.closing)) ∧
    (false = false → some (some 5) = some (some 5))) :=
  ⟨Later.refl, rfl,
    slots_written_conditionally (fakeRows.methods TestError) 7
      (some (testRows 0 (some .scanning))) () [] _ Later.refl (some (some 5))
      (some (some .closing))
      { alive := false, into := some (some 5), returned := some (some .scanning),
        it := (IterateRows (some (testRows 0 (some .scanning))) () []).terminated
          (fakeRows.methods TestError) }
      rfl⟩

end Properties

end sqlcoro
